import Mathlib

/-!
Verification development for the fx terminal file browser.

The navigation and input engine of the program is embedded shallowly:

* machine integers (Rust usize) are modelled as Nat; every subtraction that
  the source performs on usize values and that can underflow is modelled by
  checkedSub, which returns none on underflow.  A none result of an operation
  models the arithmetic-overflow panic of the Rust source (debug semantics);
  additions cannot overflow at the list and terminal sizes any claim is about,
  so they are plain Nat additions.
* the terminal, the filesystem, the home directory and the regex crate are
  external collaborators; they enter as parameters (a directory-listing
  function, an optional home path, a regex model).  Rendering calls of the
  source (print, cursor movement) have no effect on the modelled state and are
  dropped.
* strings are modelled through their character lists; the source indexes
  byte-wise, which coincides with character indexing on ASCII input, and all
  concrete inputs used below are ASCII.
-/

namespace Fx

/-- consts.rs: the number of lines excluding the file list. -/
def MARGIN : Nat := 8

/-- consts.rs: the offset for navigation up/down. -/
def PADDING : Nat := 2

/-- Rust usize subtraction, debug semantics: none models the overflow panic. -/
def checkedSub (a b : Nat) : Option Nat :=
  if b ≤ a then some (a - b) else none

/-- lib.rs EntryKind. -/
inductive EntryKind where
  | file
  | dir
  | symlink
deriving DecidableEq

/-- lib.rs Entry; the created timestamp plays no role in any claim and is
dropped from the model. -/
structure Entry where
  file_name : String
  kind : EntryKind
deriving DecidableEq

/-- lib.rs Mode. -/
inductive Mode where
  | normal
  | prompt
deriving DecidableEq

/-- lib.rs Move. -/
inductive Move where
  | up
  | down
  | next
  | prev
  | first
  | top
  | bottom
deriving DecidableEq

/-- lib.rs FolderDir. -/
inductive FolderDir where
  | parent
  | child
  | home
deriving DecidableEq

/-- lib.rs Message severity. -/
inductive MessageLevel where
  | info
  | warn
  | error
deriving DecidableEq

/-- lib.rs Message. -/
structure Message where
  level : MessageLevel
  text : String
deriving DecidableEq

/-- Message::error. -/
def Message.error (t : String) : Message := ⟨MessageLevel.error, t⟩

/-- state.rs State: the fields the specified core reads or writes.  The
current path is modelled as its list of components (Path::parent is dropLast,
push appends).  config, term and the widget fields are collaborator handles
with no algorithmic content and are dropped. -/
structure State where
  path : List String
  mode : Mode
  index : Nat
  list : List Entry
  lines : Nat
  offset : Nat
  selected : List Nat
  message : Option Message
  title : Option String
  input : Option String
  cursor : Nat
  show_dotfiles : Bool
  history_index : Nat
deriving DecidableEq

/-- A State with the initial field values of State::new. -/
def baseState : State where
  path := []
  mode := Mode.normal
  index := 0
  list := []
  lines := 0
  offset := 0
  selected := []
  message := none
  title := none
  input := none
  cursor := 0
  show_dotfiles := true
  history_index := 0

/-- sort_unstable on a Vec of usize sorts ascending. -/
def sort_unstable (l : List Nat) : List Nat :=
  List.insertionSort (· ≤ ·) l

/-- The Move::Next scan of move_caret: next starts at sorted head and the loop
replaces it by the first element exceeding i, breaking there; so the result is
the first element of l that exceeds i, if any. -/
def first_greater (i : Nat) : List Nat → Option Nat
  | [] => none
  | x :: xs => if i < x then some x else first_greater i xs

/-- The Move::Prev scan of move_caret, applied to the reversed sorted list:
prev starts at the last sorted element (the head of the reversed list) and the
reversed loop replaces it by the first element below i, breaking there. -/
def first_smaller (i : Nat) : List Nat → Option Nat
  | [] => none
  | x :: xs => if x < i then some x else first_smaller i xs

/-- The offset recomputation shared verbatim by the Move::Next and Move::First
arms of move_caret (the source duplicates this block).  Receives the state
with index already updated.  Every usize subtraction of the source is checked:
lines - MARGIN - PADDING, index - offset, list.len() - index,
index - lines + MARGIN + list.len() - index - 1, index - (lines - MARGIN -
PADDING). -/
def adjust_offset (s : State) : Option State :=
  match checkedSub s.lines MARGIN with
  | none => none
  | some v1 =>
    match checkedSub v1 PADDING with
    | none => none
    | some v =>
      if s.index < v then
        -- caret is visible on the screen without any offset
        some { s with offset := 0 }
      else
        match checkedSub s.index s.offset with
        | none => none
        | some d =>
          if v < d then
            match checkedSub s.list.length s.index with
            | none => none
            | some rem =>
              if rem ≤ PADDING then
                -- caret is beyond the screen and (almost) at the end of the list
                match checkedSub s.index s.lines with
                | none => none
                | some t1 =>
                  match checkedSub (t1 + MARGIN + s.list.length) s.index with
                  | none => none
                  | some t2 =>
                    match checkedSub t2 1 with
                    | none => none
                    | some t3 => some { s with offset := t3 }
              else
                -- caret is beyond the screen
                match checkedSub s.index v with
                | none => none
                | some o => some { s with offset := o }
          else some s

/-- main.rs move_caret.  Returns none exactly when the source panics on a
usize underflow.  Rendering calls are dropped. -/
def move_caret (s : State) (m : Move) : Option State :=
  match m with
  | Move.down =>
    -- list.len() - 1 is guarded by the emptiness test (short-circuit &&)
    if s.list ≠ [] ∧ s.index < s.list.length - 1 then
      let i := s.index + 1
      -- lines + offset - MARGIN + 1 - PADDING, evaluated left to right
      match checkedSub (s.lines + s.offset) MARGIN with
      | none => none
      | some a =>
        match checkedSub (a + 1) PADDING with
        | none => none
        | some b =>
          -- list.len() - i cannot underflow here since i ≤ len - 1
          if b ≤ i ∧ PADDING < s.list.length - i then
            some { s with index := i, offset := s.offset + 1 }
          else
            some { s with index := i }
    else some s
  | Move.up =>
    if s.list ≠ [] ∧ 0 < s.index then
      let i := s.index - 1
      -- offset > 0 && i - offset < PADDING: && short-circuits, so the
      -- subtraction i - offset is only evaluated when offset > 0
      if 0 < s.offset then
        match checkedSub i s.offset with
        | none => none
        | some d =>
          if d < PADDING then some { s with index := i, offset := s.offset - 1 }
          else some { s with index := i }
      else some { s with index := i }
    else some s
  | Move.next =>
    if s.list ≠ [] ∧ s.selected ≠ [] then
      let sorted := sort_unstable s.selected
      let nxt := (first_greater s.index sorted).getD (sorted.headD 0)
      adjust_offset { s with index := nxt }
    else some s
  | Move.prev =>
    if s.list ≠ [] ∧ s.selected ≠ [] then
      let sorted := sort_unstable s.selected
      let prv := (first_smaller s.index sorted.reverse).getD (sorted.reverse.headD 0)
      -- the offset recomputation of this arm is commented out in the source
      some { s with index := prv }
    else some s
  | Move.first =>
    if s.list ≠ [] ∧ s.selected ≠ [] then
      let sorted := sort_unstable s.selected
      adjust_offset { s with index := sorted.headD 0 }
    else some s
  | Move.top =>
    if s.list ≠ [] then some { s with index := 0, offset := 0 }
    else some s
  | Move.bottom =>
    if s.list ≠ [] then
      let i := s.list.length - 1
      -- index < lines + MARGIN + list.len() - index - 1, left to right
      match checkedSub (s.lines + MARGIN + s.list.length) i with
      | none => none
      | some c1 =>
        match checkedSub c1 1 with
        | none => none
        | some c2 =>
          if i < c2 then some { s with index := i, offset := 0 }
          else
            match checkedSub i s.lines with
            | none => none
            | some t1 =>
              match checkedSub (t1 + MARGIN + s.list.length) i with
              | none => none
              | some t2 =>
                match checkedSub t2 1 with
                | none => none
                | some t3 => some { s with index := i, offset := t3 }
    else some s

/-- A navigation state over a list of len entries with the given terminal
line count, caret and viewport at the top (the start state of claim C1). -/
def mkNav (lines len : Nat) : State :=
  { baseState with lines := lines, list := List.replicate len ⟨"f", EntryKind.file⟩ }

/-- The viewport invariant of claim C1: offset ≤ index < len and the caret row
lies in the printed window.  print shows list rows offset .. offset + (lines -
MARGIN), i.e. visibleRows = lines - MARGIN + 1 rows (the terminal line count
is lines + 1 in the source, so visibleRows is terminal height minus MARGIN);
the bound below is the last printed row and therefore already includes the
documented tail-pinning relaxation. -/
def viewInvB (s : State) : Bool :=
  decide (s.offset ≤ s.index) && decide (s.index < s.list.length) &&
    decide (s.index ≤ s.offset + (s.lines - MARGIN))

/-- Claim C1 along a sequence of moves: every call must complete without a
usize-underflow panic and leave the viewport invariant true. -/
def inv_along (s : State) : List Move → Bool
  | [] => true
  | m :: ms =>
    match move_caret s m with
    | none => false
    | some t => viewInvB t && inv_along t ms

/-- The inductive strengthening behind the amended claim C1: besides
offset ≤ index < len, a positive offset lies strictly below the caret (this is
what keeps Move::Up free of underflow), and the caret exceeds the scroll
threshold offset + (lines - MARGIN - PADDING) only within PADDING entries of
the list end, by at most that excess. -/
def strongInv (s : State) : Prop :=
  s.offset ≤ s.index ∧ s.index < s.list.length ∧
    (s.offset = 0 ∨ s.offset < s.index) ∧
    s.index ≤ s.offset + (s.lines - (MARGIN + PADDING)) +
      (PADDING - (s.list.length - 1 - s.index))

/-- Derived from the spec: the visible row capacity of the list area.  print
draws list rows at screen lines 5 .. lines - 3, that is lines - MARGIN + 1
rows; since the source sets lines to the terminal height minus one, this is
exactly terminal height minus MARGIN. -/
def specVisibleRows (lines : Nat) : Int := (lines : Int) - MARGIN + 1

/-- Modelled from the spec: the jumpToBottom offset demanded by claim C5,
max(0, cursor - visibleRows + 1) with cursor = len - 1, which puts the last
list row on the last visible row. -/
def specBottomOffset (len lines : Nat) : Int :=
  max 0 ((len : Int) - 1 - specVisibleRows lines + 1)

/-- One raw directory item as handed over by the filesystem collaborator:
name plus the metadata classification bits read_dir inspects. -/
structure DirItem where
  file_name : String
  is_dir : Bool
  is_symlink : Bool
deriving DecidableEq

/-- The filesystem collaborator: a total listing function from the current
path to its items (the IO error path of fs::read_dir aborts the interface in
the source and is outside every claim). -/
abbrev Fs := List String → List DirItem

/-- read_dir classification: kind starts as File, is overwritten by Dir when
is_dir, and finally by Symlink when is_symlink. -/
def classify (d : DirItem) : Entry :=
  ⟨d.file_name,
    if d.is_symlink then EntryKind.symlink
    else if d.is_dir then EntryKind.dir
    else EntryKind.file⟩

/-- A character-level replacement for String.startsWith "." (the library
function does not reduce well inside the kernel; on the character level both
agree). -/
def startsDot (s : String) : Bool :=
  match s.data with
  | '.' :: _ => true
  | _ => false

/-- The dotfile filter of read_dir: an item is skipped iff dotfiles are
hidden and its name starts with a dot. -/
def keepItem (sd : Bool) (d : DirItem) : Bool := sd || !(startsDot d.file_name)

/-- The accumulating loop of read_dir: each kept item is pushed onto the
vector of its kind, and the three vectors are concatenated dirs, symlinks,
files at the end. -/
def read_dir_go (sd : Bool) : List DirItem → List Entry → List Entry → List Entry → List Entry
  | [], ds, ss, fs => ds ++ ss ++ fs
  | d :: rest, ds, ss, fs =>
    if keepItem sd d then
      let e := classify d
      if e.kind == EntryKind.dir then read_dir_go sd rest (ds ++ [e]) ss fs
      else if e.kind == EntryKind.symlink then read_dir_go sd rest ds (ss ++ [e]) fs
      else read_dir_go sd rest ds ss (fs ++ [e])
    else read_dir_go sd rest ds ss fs

/-- main.rs read_dir, as a function of the items the filesystem returns. -/
def read_dir_items (sd : Bool) (items : List DirItem) : List Entry :=
  read_dir_go sd items [] [] []

/-- main.rs read_dir acting on the state. -/
def read_dir (fs : Fs) (s : State) : State :=
  { s with list := read_dir_items s.show_dotfiles (fs s.path) }

/-- main.rs change_dir.  Path::parent is modelled on the component list (the
root has no parent); the home directory collaborator is a parameter.  When the
caret stands on a file, the Child arm delegates to open_file, which only
launches an external process and possibly sets a message, leaving path, list,
index, offset and selected untouched.  Indexing state.list out of range in
get_current is a panic, modelled as none. -/
def change_dir (fs : Fs) (home : Option (List String)) (s : State) (d : FolderDir) : Option State :=
  match d with
  | FolderDir.parent =>
    if s.path = [] then some s
    else some (read_dir fs { s with
      path := s.path.dropLast
      index := 0
      offset := 0
      selected := []
      message := none })
  | FolderDir.child =>
    if s.list = [] then some s
    else
      match s.list.get? s.index with
      | none => none
      | some e =>
        if e.kind = EntryKind.file then some s
        else some (read_dir fs { s with
          path := s.path ++ [e.file_name]
          index := 0
          offset := 0
          selected := []
          message := none })
  | FolderDir.home =>
    match home with
    | none => some s
    | some h =>
      some (read_dir fs { s with
        path := h
        index := 0
        offset := 0
        selected := []
        message := none })

/-- main.rs toggle_dotfiles (note: it does not clear the message). -/
def toggle_dotfiles (fs : Fs) (s : State) : State :=
  read_dir fs { s with show_dotfiles := !s.show_dotfiles, index := 0, offset := 0, selected := [] }

/-- The r key of update_loop: read_dir then print, nothing else. -/
def refresh (fs : Fs) (s : State) : State := read_dir fs s

/-- The prompt keys handled by the loop in main.rs prompt. -/
inductive PKey where
  | escape
  | backspace
  | del
  | char (c : Char)
  | left
  | right
  | up
  | down
  | enter
deriving DecidableEq

/-- String::insert at a character position (the source inserts at a byte
position; both agree on ASCII buffers). -/
def str_insert (s : String) (i : Nat) (c : Char) : String :=
  ⟨s.data.take i ++ c :: s.data.drop i⟩

/-- String::remove at a character position. -/
def str_remove (s : String) (i : Nat) : String :=
  ⟨s.data.take i ++ s.data.drop (i + 1)⟩

/-- One key of the prompt loop of main.rs, acting on the editor fields of the
state and on the history vector of the open prompt kind (the source works on
a local clone written back when the prompt closes).  Terminal calls are
dropped; Enter is modelled up to the commit callback, which is embedded
separately (do_search). -/
def prompt_key (s : State) (history : List String) (k : PKey) : State × List String :=
  match k with
  | PKey.escape => ({ s with mode := Mode.normal }, history)
  | PKey.backspace =>
    let search := s.input.getD ""
    if search ≠ "" ∧ 0 < s.cursor then
      ({ s with cursor := s.cursor - 1, input := some (str_remove search (s.cursor - 1)) }, history)
    else (s, history)
  | PKey.del =>
    let search := s.input.getD ""
    if s.cursor < search.length then
      ({ s with input := some (str_remove search s.cursor) }, history)
    else (s, history)
  | PKey.char c =>
    let search := s.input.getD ""
    ({ s with input := some (str_insert search s.cursor c), cursor := s.cursor + 1 }, history)
  | PKey.left =>
    if 0 < s.cursor then ({ s with cursor := s.cursor - 1 }, history) else (s, history)
  | PKey.right =>
    if s.cursor < (s.input.getD "").length then ({ s with cursor := s.cursor + 1 }, history)
    else (s, history)
  | PKey.up =>
    if history ≠ [] ∧ s.history_index < history.length then
      let hi := s.history_index + 1
      let inp := history.getD (history.length - hi) ""
      ({ s with history_index := hi, input := some inp, cursor := inp.length }, history)
    else (s, history)
  | PKey.down =>
    if history ≠ [] then
      if 1 < s.history_index then
        let hi := s.history_index - 1
        let inp := history.getD (history.length - hi) ""
        ({ s with history_index := hi, input := some inp, cursor := inp.length }, history)
      else ({ s with history_index := 0, input := none, cursor := 0 }, history)
    else (s, history)
  | PKey.enter =>
    match s.input with
    | some inp => ({ s with mode := Mode.normal }, history ++ [inp])
    | none => ({ s with mode := Mode.normal }, history)

/-- Model of the external regex collaborator (crate regex): escape rewrites
its input into a pattern for the literal text (such a pattern always
compiles), valid is whether Regex::new succeeds on a pattern, is_match is
matching a compiled pattern against a file name. -/
structure RegexModel where
  escape : String → String
  valid : String → Bool
  is_match : String → String → Bool

/-- The file name of entry i (indices used below are always in range). -/
def entryName (l : List Entry) (i : Nat) : String :=
  (l.getD i ⟨"", EntryKind.file⟩).file_name

/-- The selection do_search builds on a successful compile: the enumerate
loop pushes every index whose entry file name matches. -/
def search_selected (rm : RegexModel) (pat : String) (l : List Entry) : List Nat :=
  (List.range l.length).filter (fun i => rm.is_match pat (entryName l i))

/-- Character-level replacement for String.startsWith a caret. -/
def startsCaret (s : String) : Bool :=
  match s.data with
  | '^' :: _ => true
  | _ => false

/-- The pattern do_search hands to Regex::new: input not starting with a
caret is escaped first. -/
def encodePat (rm : RegexModel) (input : String) : String :=
  if startsCaret input then input else rm.escape input

/-- main.rs do_search, the commit handler of the search prompt.  On a
successful compile it replaces the selection and jumps with Move::First,
whose offset recomputation can panic; on a failed compile it only sets the
error message. -/
def do_search (rm : RegexModel) (s : State) : Option State :=
  let input0 := s.input.getD ""
  if input0 = "" then some s
  else
    let pat := encodePat rm input0
    if rm.valid pat then
      move_caret { s with selected := search_selected rm pat s.list } Move.first
    else
      some { s with message := some (Message.error "Invalid search pattern!") }

/-- A concrete executable instance of the regex collaborator, rich enough for
the inputs of claim C9: escape prefixes a backslash to every character that
is not alphanumeric; a pattern is valid iff its parentheses (outside escapes)
balance; matching a caret pattern is a literal prefix test, any other pattern
is a literal substring test after dropping escapes. -/
def escChar (c : Char) : List Char :=
  if c.isAlphanum then [c] else ['\\', c]

def esc0 (s : String) : String :=
  ⟨s.data.foldr (fun c acc => escChar c ++ acc) []⟩

def balancedB : List Char → Nat → Bool
  | [], d => decide (d = 0)
  | ['\\'], _ => false
  | '\\' :: _ :: rest, d => balancedB rest d
  | '(' :: rest, d => balancedB rest (d + 1)
  | ')' :: rest, d => if d = 0 then false else balancedB rest (d - 1)
  | _ :: rest, d => balancedB rest d

def valid0 (p : String) : Bool := balancedB p.data 0

def unesc : List Char → List Char
  | [] => []
  | '\\' :: c :: rest => c :: unesc rest
  | c :: rest => c :: unesc rest

def hasSub (p l : List Char) : Bool :=
  if p.isPrefixOf l then true
  else
    match l with
    | [] => false
    | _ :: rest => hasSub p rest

def is_match0 (p name : String) : Bool :=
  match p.data with
  | '^' :: rest => (unesc rest).isPrefixOf name.data
  | cs => hasSub (unesc cs) name.data

def rm0 : RegexModel := ⟨esc0, valid0, is_match0⟩

/-! Concrete states used by counterexamples and witnesses. -/

/-- C2 counterexample state: eight terminal lines make the Down scroll
threshold underflow. -/
def c2cxS : State := mkNav 8 4

/-- C2 witness state. -/
def c2wS : State := { mkNav 20 10 with index := 5 }

/-- C3 filesystem returning a single plain file for every path. -/
def fs0 : Fs := fun _ => [⟨"a", false, false⟩]

/-- C3 counterexample state: six entries with entry 5 selected; a refresh
shrinks the list to one entry. -/
def c3cxS : State :=
  { baseState with path := ["x"], list := List.replicate 6 ⟨"f", EntryKind.file⟩, selected := [5] }

/-- C3 witness state: one directory entry under the caret, one selection. -/
def c3wS : State :=
  { baseState with path := ["x", "y"], list := [⟨"d", EntryKind.dir⟩], selected := [0] }

/-- C4 witness state: selection at 1 and 3, caret on 1, large terminal. -/
def c4s : State := { mkNav 30 5 with selected := [1, 3], index := 1 }

/-- The state move_caret Next reaches from c4s. -/
def c4t : State := { c4s with index := 3 }

/-- C4 counterexample state: jumping to the selected last entry of a list of
25 under a 30-line count underflows in the tail-pinning branch. -/
def c4cxS : State := { mkNav 30 25 with selected := [24] }

/-- C10 counterexample states. -/
def c10sA : State := { mkNav 10 2 with index := 1, offset := 1 }

def c10sB : State := { mkNav 10 20 with index := 6, offset := 5, selected := [0] }

def c10sC : State := { mkNav 10 3 with index := 2, selected := [2] }

/-- C10 witness state. -/
def c10wS : State := { mkNav 12 3 with index := 1 }

/-- C7 start state: an open prompt with a fresh editor. -/
def c7s0 : State := { baseState with mode := Mode.prompt }

/-- C7 history of the open prompt kind, oldest first. -/
def c7h : List String := ["a", "b"]

def c7s1 : State := (prompt_key c7s0 c7h PKey.up).1

def c7s2 : State := (prompt_key c7s1 c7h PKey.up).1

def c7s3 : State := (prompt_key c7s2 c7h PKey.down).1

def c7s4 : State := (prompt_key c7s3 c7h PKey.down).1

/-- C8 trace: open a prompt, type one character, delete it, press Enter. -/
def c8s0 : State := { baseState with mode := Mode.prompt }

def c8p1 : State × List String := prompt_key c8s0 [] (PKey.char 'a')

def c8p2 : State × List String := prompt_key c8p1.1 c8p1.2 PKey.backspace

def c8p3 : State × List String := prompt_key c8p2.1 c8p2.2 PKey.enter

/-- C9 counterexample state: the literal input is a lone opening parenthesis,
entry 0 is selected, entry 1 contains a parenthesis in its name. -/
def c9cxS : State :=
  { baseState with
    lines := 30
    list := [⟨"a", EntryKind.file⟩, ⟨"(b", EntryKind.file⟩]
    selected := [0]
    input := some "(" }

/-- C9 witness state for the error path: a caret pattern that does not
compile. -/
def c9wS : State :=
  { baseState with
    lines := 30
    list := [⟨"a", EntryKind.file⟩, ⟨"ab", EntryKind.file⟩]
    selected := [0]
    input := some "^(" }

/-- C9 witness state for the valid path. -/
def c9wS2 : State :=
  { baseState with
    lines := 30
    list := [⟨"a", EntryKind.file⟩, ⟨"ab", EntryKind.file⟩]
    selected := [0]
    input := some "^a" }

/-! Helper lemmas. -/

theorem checkedSub_some {a b : Nat} (h : b ≤ a) : checkedSub a b = some (a - b) := by
  unfold checkedSub
  rw [if_pos h]

theorem checkedSub_none {a b : Nat} (h : a < b) : checkedSub a b = none := by
  unfold checkedSub
  rw [if_neg (by omega)]

/-- Shape of the Move::Down arm when the guard holds and the threshold
subtraction does not underflow: the scroll test is
lines + offset - 9 ≤ index + 1. -/
theorem move_caret_down_eq (s : State) (hg : s.list ≠ [] ∧ s.index < s.list.length - 1)
    (h9 : 9 ≤ s.lines + s.offset) :
    move_caret s Move.down =
      if s.lines + s.offset - 9 ≤ s.index + 1 ∧ PADDING < s.list.length - (s.index + 1) then
        some { s with index := s.index + 1, offset := s.offset + 1 }
      else some { s with index := s.index + 1 } := by
  have ha : checkedSub (s.lines + s.offset) MARGIN = some (s.lines + s.offset - 8) := by
    rw [show MARGIN = 8 from rfl]
    exact checkedSub_some (by omega)
  have hb : checkedSub (s.lines + s.offset - 8 + 1) PADDING = some (s.lines + s.offset - 9) := by
    rw [show PADDING = 2 from rfl, checkedSub_some (by omega),
      show s.lines + s.offset - 8 + 1 - 2 = s.lines + s.offset - 9 from by omega]
  simp only [move_caret, if_pos hg, ha, hb]

/-- Move::Down when the guard fails: no change. -/
theorem move_caret_down_noop (s : State) (hg : ¬ (s.list ≠ [] ∧ s.index < s.list.length - 1)) :
    move_caret s Move.down = some s := by
  simp only [move_caret, if_neg hg]

/-- Shape of the Move::Up arm when the guard holds and a positive offset lies
strictly below the caret (so index - 1 - offset does not underflow). -/
theorem move_caret_up_eq (s : State) (hg : s.list ≠ [] ∧ 0 < s.index)
    (hsep : s.offset = 0 ∨ s.offset < s.index) :
    move_caret s Move.up =
      if 0 < s.offset ∧ s.index - 1 - s.offset < PADDING then
        some { s with index := s.index - 1, offset := s.offset - 1 }
      else some { s with index := s.index - 1 } := by
  rcases hsep with h0 | hlt
  · have h1 : ¬ (0 < s.offset) := by omega
    simp only [move_caret, if_pos hg, if_neg h1]
    rw [if_neg (fun h => h1 h.1)]
  · by_cases hpos : 0 < s.offset
    · have hcs : checkedSub (s.index - 1) s.offset = some (s.index - 1 - s.offset) :=
        checkedSub_some (by omega)
      simp only [move_caret, if_pos hg, if_pos hpos, hcs]
      by_cases hd : s.index - 1 - s.offset < PADDING
      · rw [if_pos hd, if_pos ⟨hpos, hd⟩]
      · rw [if_neg hd, if_neg (fun h => hd h.2)]
    · simp only [move_caret, if_pos hg, if_neg hpos]
      rw [if_neg (fun h => hpos h.1)]

/-- Move::Up when the guard fails: no change. -/
theorem move_caret_up_noop (s : State) (hg : ¬ (s.list ≠ [] ∧ 0 < s.index)) :
    move_caret s Move.up = some s := by
  simp only [move_caret, if_neg hg]

/-- Shape of the Move::Bottom arm on a non-empty list: the offset stays 0
below the erroneous threshold lines + MARGIN and is len + 7 - lines above
it.  No subtraction of this arm can underflow. -/
theorem move_caret_bottom_eq (s : State) (hne : s.list ≠ []) :
    move_caret s Move.bottom =
      if s.list.length - 1 < s.lines + MARGIN then
        some { s with index := s.list.length - 1, offset := 0 }
      else some { s with index := s.list.length - 1, offset := s.list.length + 7 - s.lines } := by
  have hlen : 1 ≤ s.list.length := List.length_pos.mpr hne
  have hc1 : checkedSub (s.lines + MARGIN + s.list.length) (s.list.length - 1)
      = some (s.lines + MARGIN + s.list.length - (s.list.length - 1)) :=
    checkedSub_some (by omega)
  have hc2 : checkedSub (s.lines + MARGIN + s.list.length - (s.list.length - 1)) 1
      = some (s.lines + MARGIN) := by
    rw [checkedSub_some (by simp only [MARGIN]; omega)]
    congr 1
    simp only [MARGIN]
    omega
  simp only [move_caret, if_pos hne, hc1, hc2]
  by_cases hcond : s.list.length - 1 < s.lines + MARGIN
  · rw [if_pos hcond, if_pos hcond]
  · rw [if_neg hcond, if_neg hcond]
    have hM : MARGIN = 8 := rfl
    rw [hM] at hcond
    have e1 : checkedSub (s.list.length - 1) s.lines = some (s.list.length - 1 - s.lines) :=
      checkedSub_some (by omega)
    have e2 : checkedSub (s.list.length - 1 - s.lines + MARGIN + s.list.length)
        (s.list.length - 1)
        = some (s.list.length - 1 - s.lines + MARGIN + s.list.length - (s.list.length - 1)) :=
      checkedSub_some (by rw [hM]; omega)
    have e3 : checkedSub
        (s.list.length - 1 - s.lines + MARGIN + s.list.length - (s.list.length - 1)) 1
        = some (s.list.length + 7 - s.lines) := by
      rw [checkedSub_some (by rw [hM]; omega),
        show s.list.length - 1 - s.lines + MARGIN + s.list.length - (s.list.length - 1) - 1
          = s.list.length + 7 - s.lines from by rw [hM]; omega]
    simp only [e1, e2, e3]

/-- Move::Prev never panics. -/
theorem move_caret_prev_isSome (s : State) : (move_caret s Move.prev).isSome := by
  simp only [move_caret]
  split <;> rfl

/-- Move::Top never panics. -/
theorem move_caret_top_isSome (s : State) : (move_caret s Move.top).isSome := by
  simp only [move_caret]
  split <;> rfl

/-- C5 (code_bug): move_caret Bottom on a 20-entry list under 20 content
lines sets the caret to 19 but leaves the offset at 0, although the claim
demands offset = max(0, cursor - visibleRows + 1) = 7 so that the last list
row lands on the last visible row; the caret row 19 lies beyond the last
printed row offset + (lines - MARGIN) = 12, so the tail is not shown.  The
Bottom arm compares against lines + MARGIN + list.len() - index - 1 where the
intended window bound is visibleRows. -/
theorem c5_theorem :
    (move_caret (mkNav 20 20) Move.bottom).map State.index = some 19 ∧
    (move_caret (mkNav 20 20) Move.bottom).map State.offset = some 0 ∧
    specBottomOffset 20 20 = 7 ∧
    (0 : Int) ≠ specBottomOffset 20 20 ∧
    (mkNav 20 20).offset + ((mkNav 20 20).lines - MARGIN) < 19 := by decide

/-- C2 (corrected): when the terminal line count is at least
MARGIN + PADDING - 1 = 9, Move::Down on a non-empty list with the caret not
on the last entry advances the caret by exactly one, and advances the offset
by exactly one precisely when the new caret reaches or exceeds
offset + visibleRows - PADDING and more than PADDING entries remain from the
caret (inclusive) to the end of the list; with the caret on the last entry or
an empty list the state is unchanged.  On a smaller line count the threshold
subtraction underflows and the call panics (see the counterexample). -/
theorem c2_theorem (s : State) (h9 : MARGIN + PADDING ≤ s.lines + 1) :
    (s.list ≠ [] → s.index < s.list.length - 1 →
      ∃ t, move_caret s Move.down = some t ∧ t.index = s.index + 1 ∧ t.list = s.list ∧
        t.offset =
          (if (s.offset : Int) + specVisibleRows s.lines - PADDING ≤ (s.index : Int) + 1 ∧
              (PADDING : Int) < (s.list.length : Int) - ((s.index : Int) + 1)
            then s.offset + 1 else s.offset)) ∧
    (s.list = [] ∨ s.index = s.list.length - 1 → move_caret s Move.down = some s) := by
  constructor
  · intro hne hidx
    have h9' : 9 ≤ s.lines + s.offset := by
      simp only [MARGIN, PADDING] at h9
      omega
    have hlen : 0 < s.list.length := List.length_pos.mpr hne
    have hcond : ((s.offset : Int) + specVisibleRows s.lines - PADDING ≤ (s.index : Int) + 1 ∧
        (PADDING : Int) < (s.list.length : Int) - ((s.index : Int) + 1)) ↔
        (s.lines + s.offset - 9 ≤ s.index + 1 ∧ PADDING < s.list.length - (s.index + 1)) := by
      simp only [specVisibleRows, MARGIN, PADDING]
      constructor
      · rintro ⟨ha, hb⟩
        exact ⟨by omega, by omega⟩
      · rintro ⟨ha, hb⟩
        exact ⟨by omega, by omega⟩
    rw [move_caret_down_eq s ⟨hne, hidx⟩ h9']
    by_cases hc : s.lines + s.offset - 9 ≤ s.index + 1 ∧ PADDING < s.list.length - (s.index + 1)
    · rw [if_pos hc]
      exact ⟨_, rfl, rfl, rfl, by rw [if_pos (hcond.mpr hc)]⟩
    · rw [if_neg hc]
      exact ⟨_, rfl, rfl, rfl, by rw [if_neg (fun h => hc (hcond.mp h))]⟩
  · intro h
    apply move_caret_down_noop
    rintro ⟨hne, hlt⟩
    rcases h with h | h
    · exact hne h
    · omega

/-- C2 (counterexample): with terminal line count 8 (visibleRows 1) and a
four-entry list with the caret on entry 0, the claim demands the caret to
advance to 1, but the scroll-threshold subtraction underflows and the call
panics: no state results at all. -/
theorem c2_counterexample :
    c2cxS.list ≠ [] ∧ c2cxS.index < c2cxS.list.length - 1 ∧
      move_caret c2cxS Move.down = none := by decide

/-- C2 witness. -/
theorem c2_witness :
    ∃ t, move_caret c2wS Move.down = some t ∧ t.index = c2wS.index + 1 ∧ t.list = c2wS.list ∧
      t.offset =
        (if (c2wS.offset : Int) + specVisibleRows c2wS.lines - PADDING ≤ (c2wS.index : Int) + 1 ∧
            (PADDING : Int) < (c2wS.list.length : Int) - ((c2wS.index : Int) + 1)
          then c2wS.offset + 1 else c2wS.offset) :=
  (c2_theorem c2wS (by decide)).1 (by decide) (by decide)

/-- C10 (corrected): restricted to the Move variants Down, Up, Prev, Top and
Bottom, and strengthened so that a positive offset lies strictly below the
caret, move_caret is total under the claimed precondition: no usize
subtraction underflows.  The variants Next and First, and Up at
offset = index > 0, can underflow even under the claimed precondition (see
the counterexample). -/
theorem c10_theorem (s : State) (m : Move) (hne : s.list ≠ []) (hoi : s.offset ≤ s.index)
    (hil : s.index < s.list.length) (hsep : s.offset = 0 ∨ s.offset < s.index)
    (hlines : MARGIN + PADDING ≤ s.lines)
    (hm : m = Move.down ∨ m = Move.up ∨ m = Move.prev ∨ m = Move.top ∨ m = Move.bottom) :
    (move_caret s m).isSome := by
  have hl10 : 10 ≤ s.lines := by
    simp only [MARGIN, PADDING] at hlines
    omega
  rcases hm with rfl | rfl | rfl | rfl | rfl
  · by_cases hg : s.list ≠ [] ∧ s.index < s.list.length - 1
    · rw [move_caret_down_eq s hg (by omega)]
      split <;> rfl
    · rw [move_caret_down_noop s hg]
      rfl
  · by_cases hg : s.list ≠ [] ∧ 0 < s.index
    · rw [move_caret_up_eq s hg hsep]
      split <;> rfl
    · rw [move_caret_up_noop s hg]
      rfl
  · exact move_caret_prev_isSome s
  · exact move_caret_top_isSome s
  · rw [move_caret_bottom_eq s hne]
    split <;> rfl

/-- C10 (counterexample): three states satisfying the claimed precondition
(non-empty list, 0 ≤ offset ≤ index < len, line count MARGIN + PADDING) on
which Move::Up, Move::Next and Move::First make a usize subtraction
underflow, so the panic branch of the embedding is reached. -/
theorem c10_counterexample :
    (c10sA.list ≠ [] ∧ c10sA.offset ≤ c10sA.index ∧ c10sA.index < c10sA.list.length ∧
      MARGIN + PADDING ≤ c10sA.lines ∧ move_caret c10sA Move.up = none) ∧
    (c10sB.list ≠ [] ∧ c10sB.offset ≤ c10sB.index ∧ c10sB.index < c10sB.list.length ∧
      MARGIN + PADDING ≤ c10sB.lines ∧ move_caret c10sB Move.next = none) ∧
    (c10sC.list ≠ [] ∧ c10sC.offset ≤ c10sC.index ∧ c10sC.index < c10sC.list.length ∧
      MARGIN + PADDING ≤ c10sC.lines ∧ move_caret c10sC Move.first = none) := by decide

/-- C10 witness. -/
theorem c10_witness : (move_caret c10wS Move.down).isSome :=
  c10_theorem c10wS Move.down (by decide) (by decide) (by decide) (by decide) (by decide)
    (Or.inl rfl)

/-- strongInv implies the viewport invariant check. -/
theorem viewInvB_of_strong {s : State} (hl : 10 ≤ s.lines) (hs : strongInv s) :
    viewInvB s = true := by
  obtain ⟨h1, h2, h3, h4⟩ := hs
  simp only [MARGIN, PADDING] at h4
  simp only [viewInvB, MARGIN, Bool.and_eq_true, decide_eq_true_eq]
  exact ⟨⟨h1, h2⟩, by omega⟩

/-- Move::Down preserves the strengthened invariant on terminals with at
least 12 content lines. -/
theorem down_step {s : State} (hl : 12 ≤ s.lines) (hs : strongInv s) :
    ∃ t, move_caret s Move.down = some t ∧ strongInv t ∧ t.lines = s.lines := by
  obtain ⟨h1, h2, h3, h4⟩ := hs
  simp only [MARGIN, PADDING] at h4
  by_cases hg : s.list ≠ [] ∧ s.index < s.list.length - 1
  · obtain ⟨hgne, hglt⟩ := hg
    have hlen : 0 < s.list.length := List.length_pos.mpr hgne
    rw [move_caret_down_eq s ⟨hgne, hglt⟩ (by omega)]
    by_cases hc : s.lines + s.offset - 9 ≤ s.index + 1 ∧ PADDING < s.list.length - (s.index + 1)
    · rw [if_pos hc]
      simp only [PADDING] at hc
      refine ⟨_, rfl, ?_, rfl⟩
      simp only [strongInv, MARGIN, PADDING]
      omega
    · rw [if_neg hc]
      simp only [PADDING] at hc
      refine ⟨_, rfl, ?_, rfl⟩
      simp only [strongInv, MARGIN, PADDING]
      omega
  · rw [move_caret_down_noop s hg]
    exact ⟨s, rfl, ⟨h1, h2, h3, by simp only [MARGIN, PADDING]; omega⟩, rfl⟩

/-- Move::Up preserves the strengthened invariant on terminals with at least
12 content lines. -/
theorem up_step {s : State} (hl : 12 ≤ s.lines) (hs : strongInv s) :
    ∃ t, move_caret s Move.up = some t ∧ strongInv t ∧ t.lines = s.lines := by
  obtain ⟨h1, h2, h3, h4⟩ := hs
  simp only [MARGIN, PADDING] at h4
  by_cases hg : s.list ≠ [] ∧ 0 < s.index
  · obtain ⟨hgne, hgpos⟩ := hg
    have hlen : 0 < s.list.length := List.length_pos.mpr hgne
    rw [move_caret_up_eq s ⟨hgne, hgpos⟩ h3]
    by_cases hc : 0 < s.offset ∧ s.index - 1 - s.offset < PADDING
    · rw [if_pos hc]
      simp only [PADDING] at hc
      refine ⟨_, rfl, ?_, rfl⟩
      simp only [strongInv, MARGIN, PADDING]
      omega
    · rw [if_neg hc]
      simp only [PADDING] at hc
      refine ⟨_, rfl, ?_, rfl⟩
      simp only [strongInv, MARGIN, PADDING]
      omega
  · rw [move_caret_up_noop s hg]
    exact ⟨s, rfl, ⟨h1, h2, h3, by simp only [MARGIN, PADDING]; omega⟩, rfl⟩

/-- The strengthened invariant holds along every Down/Up sequence. -/
theorem c1_general (ms : List Move) :
    ∀ s : State, 12 ≤ s.lines → strongInv s →
      (∀ m ∈ ms, m = Move.down ∨ m = Move.up) → inv_along s ms = true := by
  induction ms with
  | nil => intro s _ _ _; rfl
  | cons m rest ih =>
    intro s hl hs hm
    have hm0 := hm m (List.mem_cons_self m rest)
    have hrest : ∀ x ∈ rest, x = Move.down ∨ x = Move.up :=
      fun x hx => hm x (List.mem_cons_of_mem m hx)
    rcases hm0 with rfl | rfl
    · obtain ⟨t, ht, hst, hlines⟩ := down_step hl hs
      simp only [inv_along, ht]
      rw [viewInvB_of_strong (by omega) hst, ih t (by omega) hst hrest]
      rfl
    · obtain ⟨t, ht, hst, hlines⟩ := up_step hl hs
      simp only [inv_along, ht]
      rw [viewInvB_of_strong (by omega) hst, ih t (by omega) hst hrest]
      rfl

/-- C1 (corrected): for terminals with at least MARGIN + PADDING + 2 = 12
content lines, every Down/Up sequence from index = 0, offset = 0 on a
non-empty list keeps, after every call, 0 ≤ offset ≤ index < len and the
caret within the printed window offset .. offset + (lines - MARGIN), the
bound that already includes the documented tail-pinning relaxation; and no
call panics.  On line counts 10 and 11 the claim fails (see the
counterexample). -/
theorem c1_theorem (lines len : Nat) (ms : List Move) (hl : MARGIN + PADDING + 2 ≤ lines)
    (hn : 0 < len) (hm : ∀ m ∈ ms, m = Move.down ∨ m = Move.up) :
    inv_along (mkNav lines len) ms = true := by
  have hlen : (mkNav lines len).list.length = len := by
    simp [mkNav]
  apply c1_general ms (mkNav lines len) ?_ ?_ hm
  · show 12 ≤ lines
    simp only [MARGIN, PADDING] at hl
    omega
  · refine ⟨le_rfl, ?_, Or.inl rfl, Nat.zero_le _⟩
    show (0 : Nat) < (mkNav lines len).list.length
    rw [hlen]
    exact hn

/-- C1 (counterexample): with terminal line count 10 = MARGIN + PADDING the
sequence Down, Up panics on a usize underflow in the Up arm, and with line
count 11 the nine-move Down/Up sequence below ends with index = 5 and
offset = 1, so the caret lies strictly below the last printed window row
offset + (lines - MARGIN) = 4 even though visibleRows = 4 rows starting at
offset are shown: the viewport invariant is violated beyond the documented
tail relaxation. -/
theorem c1_counterexample :
    inv_along (mkNav 10 4) [Move.down, Move.up] = false ∧
    inv_along (mkNav 11 6)
      [Move.down, Move.down, Move.down, Move.down, Move.down,
        Move.up, Move.up, Move.down, Move.down] = false := by decide

/-- C1 witness. -/
theorem c1_witness : inv_along (mkNav 12 3) [Move.down, Move.down, Move.up] = true :=
  c1_theorem 12 3 [Move.down, Move.down, Move.up] (by decide) (by decide) (by decide)

/-! Characterization of the Move::Next and Move::Prev scan targets. -/

theorem first_greater_spec {i : Nat} {l : List Nat} {y : Nat}
    (h : first_greater i l = some y) : y ∈ l ∧ i < y := by
  induction l with
  | nil => simp [first_greater] at h
  | cons x xs ih =>
    simp only [first_greater] at h
    by_cases hx : i < x
    · rw [if_pos hx] at h
      cases h
      exact ⟨List.mem_cons_self _ _, hx⟩
    · rw [if_neg hx] at h
      obtain ⟨hm, hy⟩ := ih h
      exact ⟨List.mem_cons_of_mem x hm, hy⟩

theorem first_greater_min {i : Nat} {l : List Nat} (hp : l.Pairwise (· ≤ ·)) {y : Nat}
    (h : first_greater i l = some y) : ∀ j ∈ l, i < j → y ≤ j := by
  induction l with
  | nil => simp [first_greater] at h
  | cons x xs ih =>
    rw [List.pairwise_cons] at hp
    simp only [first_greater] at h
    by_cases hx : i < x
    · rw [if_pos hx] at h
      cases h
      intro j hj _
      rcases List.mem_cons.mp hj with rfl | hj
      · exact le_rfl
      · exact hp.1 j hj
    · rw [if_neg hx] at h
      intro j hj hij
      rcases List.mem_cons.mp hj with rfl | hj
      · omega
      · exact ih hp.2 h j hj hij

theorem first_greater_none {i : Nat} {l : List Nat} (h : first_greater i l = none) :
    ∀ j ∈ l, j ≤ i := by
  induction l with
  | nil => intro j hj; simp at hj
  | cons x xs ih =>
    simp only [first_greater] at h
    by_cases hx : i < x
    · rw [if_pos hx] at h
      cases h
    · rw [if_neg hx] at h
      intro j hj
      rcases List.mem_cons.mp hj with rfl | hj
      · omega
      · exact ih h j hj

theorem first_smaller_spec {i : Nat} {l : List Nat} {y : Nat}
    (h : first_smaller i l = some y) : y ∈ l ∧ y < i := by
  induction l with
  | nil => simp [first_smaller] at h
  | cons x xs ih =>
    simp only [first_smaller] at h
    by_cases hx : x < i
    · rw [if_pos hx] at h
      cases h
      exact ⟨List.mem_cons_self _ _, hx⟩
    · rw [if_neg hx] at h
      obtain ⟨hm, hy⟩ := ih h
      exact ⟨List.mem_cons_of_mem x hm, hy⟩

theorem first_smaller_max {i : Nat} {l : List Nat} (hp : l.Pairwise (fun a b => b ≤ a))
    {y : Nat} (h : first_smaller i l = some y) : ∀ j ∈ l, j < i → j ≤ y := by
  induction l with
  | nil => simp [first_smaller] at h
  | cons x xs ih =>
    rw [List.pairwise_cons] at hp
    simp only [first_smaller] at h
    by_cases hx : x < i
    · rw [if_pos hx] at h
      cases h
      intro j hj _
      rcases List.mem_cons.mp hj with rfl | hj
      · exact le_rfl
      · exact hp.1 j hj
    · rw [if_neg hx] at h
      intro j hj hij
      rcases List.mem_cons.mp hj with rfl | hj
      · omega
      · exact ih hp.2 h j hj hij

theorem first_smaller_none {i : Nat} {l : List Nat} (h : first_smaller i l = none) :
    ∀ j ∈ l, i ≤ j := by
  induction l with
  | nil => intro j hj; simp at hj
  | cons x xs ih =>
    simp only [first_smaller] at h
    by_cases hx : x < i
    · rw [if_pos hx] at h
      cases h
    · rw [if_neg hx] at h
      intro j hj
      rcases List.mem_cons.mp hj with rfl | hj
      · omega
      · exact ih h j hj

theorem headD_min {l : List Nat} (hp : l.Pairwise (· ≤ ·)) (hne : l ≠ []) :
    l.headD 0 ∈ l ∧ ∀ j ∈ l, l.headD 0 ≤ j := by
  cases l with
  | nil => exact absurd rfl hne
  | cons x xs =>
    rw [List.pairwise_cons] at hp
    refine ⟨List.mem_cons_self x xs, ?_⟩
    intro j hj
    rcases List.mem_cons.mp hj with rfl | hj
    · exact le_rfl
    · exact hp.1 j hj

theorem headD_max {l : List Nat} (hp : l.Pairwise (fun a b => b ≤ a)) (hne : l ≠ []) :
    l.headD 0 ∈ l ∧ ∀ j ∈ l, j ≤ l.headD 0 := by
  cases l with
  | nil => exact absurd rfl hne
  | cons x xs =>
    rw [List.pairwise_cons] at hp
    refine ⟨List.mem_cons_self x xs, ?_⟩
    intro j hj
    rcases List.mem_cons.mp hj with rfl | hj
    · exact le_rfl
    · exact hp.1 j hj

theorem sort_unstable_pairwise (l : List Nat) : (sort_unstable l).Pairwise (· ≤ ·) :=
  List.sorted_insertionSort (· ≤ ·) l

theorem mem_sort_unstable {l : List Nat} {x : Nat} : x ∈ sort_unstable l ↔ x ∈ l :=
  List.mem_insertionSort _

theorem sort_unstable_ne_nil {l : List Nat} (h : l ≠ []) : sort_unstable l ≠ [] := by
  intro h0
  apply h
  have hlen := (List.perm_insertionSort (· ≤ ·) l).length_eq
  rw [show List.insertionSort (· ≤ ·) l = sort_unstable l from rfl, h0] at hlen
  exact List.length_eq_zero.mp hlen.symm

theorem sort_unstable_rev_pairwise (l : List Nat) :
    (sort_unstable l).reverse.Pairwise (fun a b => b ≤ a) := by
  rw [List.pairwise_reverse]
  exact sort_unstable_pairwise l

theorem mem_rev_sort {sel : List Nat} {x : Nat} :
    x ∈ (sort_unstable sel).reverse ↔ x ∈ sel := by
  rw [List.mem_reverse]
  exact mem_sort_unstable

theorem rev_sort_ne_nil {sel : List Nat} (h : sel ≠ []) :
    (sort_unstable sel).reverse ≠ [] := by
  intro h0
  exact sort_unstable_ne_nil h (List.reverse_eq_nil_iff.mp h0)

/-- The Move::Next target value: either the smallest selected index above i,
or, wrapping, the smallest selected index overall. -/
theorem next_target_spec (sel : List Nat) (i : Nat) (hsel : sel ≠ []) :
    ((∃ j ∈ sel, i < j) →
      (first_greater i (sort_unstable sel)).getD ((sort_unstable sel).headD 0) ∈ sel ∧
        i < (first_greater i (sort_unstable sel)).getD ((sort_unstable sel).headD 0) ∧
        ∀ j ∈ sel, i < j →
          (first_greater i (sort_unstable sel)).getD ((sort_unstable sel).headD 0) ≤ j) ∧
    ((¬ ∃ j ∈ sel, i < j) →
      (first_greater i (sort_unstable sel)).getD ((sort_unstable sel).headD 0) ∈ sel ∧
        ∀ j ∈ sel,
          (first_greater i (sort_unstable sel)).getD ((sort_unstable sel).headD 0) ≤ j) := by
  have hp := sort_unstable_pairwise sel
  have hne := sort_unstable_ne_nil hsel
  cases hfg : first_greater i (sort_unstable sel) with
  | some y =>
    obtain ⟨hym, hylt⟩ := first_greater_spec hfg
    have hmin := first_greater_min hp hfg
    constructor
    · intro _
      simp only [hfg, Option.getD_some]
      exact ⟨mem_sort_unstable.mp hym, hylt,
        fun j hj hij => hmin j (mem_sort_unstable.mpr hj) hij⟩
    · intro hno
      exact absurd ⟨y, mem_sort_unstable.mp hym, hylt⟩ hno
  | none =>
    have hall := first_greater_none hfg
    have hhd := headD_min hp hne
    constructor
    · rintro ⟨j, hj, hij⟩
      exact absurd hij (Nat.not_lt.mpr (hall j (mem_sort_unstable.mpr hj)))
    · intro _
      simp only [hfg, Option.getD_none]
      exact ⟨mem_sort_unstable.mp hhd.1, fun j hj => hhd.2 j (mem_sort_unstable.mpr hj)⟩

/-- The Move::Prev target value: either the largest selected index below i,
or, wrapping, the largest selected index overall. -/
theorem prev_target_spec (sel : List Nat) (i : Nat) (hsel : sel ≠ []) :
    ((∃ j ∈ sel, j < i) →
      (first_smaller i (sort_unstable sel).reverse).getD
          ((sort_unstable sel).reverse.headD 0) ∈ sel ∧
        (first_smaller i (sort_unstable sel).reverse).getD
          ((sort_unstable sel).reverse.headD 0) < i ∧
        ∀ j ∈ sel, j < i →
          j ≤ (first_smaller i (sort_unstable sel).reverse).getD
            ((sort_unstable sel).reverse.headD 0)) ∧
    ((¬ ∃ j ∈ sel, j < i) →
      (first_smaller i (sort_unstable sel).reverse).getD
          ((sort_unstable sel).reverse.headD 0) ∈ sel ∧
        ∀ j ∈ sel,
          j ≤ (first_smaller i (sort_unstable sel).reverse).getD
            ((sort_unstable sel).reverse.headD 0)) := by
  have hp := sort_unstable_rev_pairwise sel
  have hne := rev_sort_ne_nil hsel
  cases hfs : first_smaller i (sort_unstable sel).reverse with
  | some y =>
    obtain ⟨hym, hylt⟩ := first_smaller_spec hfs
    have hmax := first_smaller_max hp hfs
    constructor
    · intro _
      simp only [hfs, Option.getD_some]
      exact ⟨mem_rev_sort.mp hym, hylt, fun j hj hij => hmax j (mem_rev_sort.mpr hj) hij⟩
    · intro hno
      exact absurd ⟨y, mem_rev_sort.mp hym, hylt⟩ hno
  | none =>
    have hall := first_smaller_none hfs
    have hhd := headD_max hp hne
    constructor
    · rintro ⟨j, hj, hij⟩
      exact absurd hij (Nat.not_lt.mpr (hall j (mem_rev_sort.mpr hj)))
    · intro _
      simp only [hfs, Option.getD_none]
      exact ⟨mem_rev_sort.mp hhd.1, fun j hj => hhd.2 j (mem_rev_sort.mpr hj)⟩

/-- adjust_offset only rewrites the offset field. -/
theorem adjust_offset_proj {u t : State} (h : adjust_offset u = some t) :
    t.index = u.index ∧ t.selected = u.selected ∧ t.list = u.list := by
  unfold adjust_offset at h
  repeat' split at h
  all_goals first
    | (cases h; exact ⟨rfl, rfl, rfl⟩)
    | cases h

/-- C4 (corrected): Move::Prev always succeeds and jumps to the largest
selected index strictly below the caret, wrapping to the largest selected
index overall; Move::Next, whenever it completes, jumps to the smallest
selected index strictly above the caret, wrapping to the smallest selected
index overall — but its offset recomputation can underflow and panic even
on a non-empty list with a non-empty selection (see the counterexample);
with an empty list or empty selection both variants leave the state
unchanged. -/
theorem c4_theorem (s : State) :
    (s.list ≠ [] → s.selected ≠ [] →
      ∃ t, move_caret s Move.prev = some t ∧
        ((∃ j ∈ s.selected, j < s.index) →
          t.index ∈ s.selected ∧ t.index < s.index ∧
            ∀ j ∈ s.selected, j < s.index → j ≤ t.index) ∧
        ((¬ ∃ j ∈ s.selected, j < s.index) →
          t.index ∈ s.selected ∧ ∀ j ∈ s.selected, j ≤ t.index)) ∧
    (∀ t, s.list ≠ [] → s.selected ≠ [] → move_caret s Move.next = some t →
      ((∃ j ∈ s.selected, s.index < j) →
        t.index ∈ s.selected ∧ s.index < t.index ∧
          ∀ j ∈ s.selected, s.index < j → t.index ≤ j) ∧
      ((¬ ∃ j ∈ s.selected, s.index < j) →
        t.index ∈ s.selected ∧ ∀ j ∈ s.selected, t.index ≤ j)) ∧
    (s.list = [] ∨ s.selected = [] →
      move_caret s Move.next = some s ∧ move_caret s Move.prev = some s) := by
  refine ⟨?_, ?_, ?_⟩
  · intro hne hsel
    simp only [move_caret, if_pos (And.intro hne hsel)]
    obtain ⟨hA, hB⟩ := prev_target_spec s.selected s.index hsel
    exact ⟨_, rfl, hA, hB⟩
  · intro t hne hsel hmc
    simp only [move_caret, if_pos (And.intro hne hsel)] at hmc
    have hproj := adjust_offset_proj hmc
    have hti : t.index =
        (first_greater s.index (sort_unstable s.selected)).getD
          ((sort_unstable s.selected).headD 0) := hproj.1
    obtain ⟨hA, hB⟩ := next_target_spec s.selected s.index hsel
    rw [hti]
    exact ⟨hA, hB⟩
  · intro h
    have hg : ¬ (s.list ≠ [] ∧ s.selected ≠ []) := by
      rintro ⟨hne, hsel⟩
      rcases h with h | h
      · exact hne h
      · exact hsel h
    constructor <;> simp only [move_caret, if_neg hg]

/-- C4 (counterexample): a non-empty list of 25 entries under 30 content
lines with the last entry selected: the claim demands that Move::Next set
the caret to 24, but the tail-pinning branch of the offset recomputation
subtracts lines from the new caret (24 - 30) and underflows, so the call
panics and no state with caret 24 results. -/
theorem c4_counterexample :
    c4cxS.list ≠ [] ∧ c4cxS.selected = [24] ∧ c4cxS.index = 0 ∧
      move_caret c4cxS Move.next = none := by decide

/-- C4 witness. -/
theorem c4_witness :
    (∃ t, move_caret c4s Move.prev = some t ∧
      ((∃ j ∈ c4s.selected, j < c4s.index) →
        t.index ∈ c4s.selected ∧ t.index < c4s.index ∧
          ∀ j ∈ c4s.selected, j < c4s.index → j ≤ t.index) ∧
      ((¬ ∃ j ∈ c4s.selected, j < c4s.index) →
        t.index ∈ c4s.selected ∧ ∀ j ∈ c4s.selected, j ≤ t.index)) ∧
    (((∃ j ∈ c4s.selected, c4s.index < j) →
        c4t.index ∈ c4s.selected ∧ c4s.index < c4t.index ∧
          ∀ j ∈ c4s.selected, c4s.index < j → c4t.index ≤ j) ∧
      ((¬ ∃ j ∈ c4s.selected, c4s.index < j) →
        c4t.index ∈ c4s.selected ∧ ∀ j ∈ c4s.selected, c4t.index ≤ j)) :=
  ⟨(c4_theorem c4s).1 (by decide) (by decide),
   (c4_theorem c4s).2.1 c4t (by decide) (by decide) (by decide)⟩

/-! Claim C6: read_dir grouping. -/

theorem read_dir_go_eq (sd : Bool) (items : List DirItem) :
    ∀ ds ss fs : List Entry,
      read_dir_go sd items ds ss fs =
        (ds ++ ((items.filter (keepItem sd)).map classify).filter
            (fun e => e.kind == EntryKind.dir)) ++
          (ss ++ ((items.filter (keepItem sd)).map classify).filter
            (fun e => e.kind == EntryKind.symlink)) ++
          (fs ++ ((items.filter (keepItem sd)).map classify).filter
            (fun e => e.kind == EntryKind.file)) := by
  induction items with
  | nil =>
    intro ds ss fs
    simp [read_dir_go]
  | cons d rest ih =>
    intro ds ss fs
    by_cases hk : keepItem sd d
    · rcases hkind : (classify d).kind with _ | _ | _ <;>
        simp [read_dir_go, hk, hkind, ih, List.filter_cons, List.append_assoc]
    · simp [read_dir_go, hk, ih, List.filter_cons]

/-- C6 (confirmed): the list read_dir builds is exactly the kept items in
collaborator order, grouped as all directories, then all symlinks, then all
files — a filter keeps relative order inside each group, and no name sort is
applied. -/
theorem c6_theorem (sd : Bool) (items : List DirItem) :
    read_dir_items sd items =
      ((items.filter (keepItem sd)).map classify).filter
          (fun e => e.kind == EntryKind.dir) ++
        ((items.filter (keepItem sd)).map classify).filter
          (fun e => e.kind == EntryKind.symlink) ++
        ((items.filter (keepItem sd)).map classify).filter
          (fun e => e.kind == EntryKind.file) := by
  have h := read_dir_go_eq sd items [] [] []
  simpa [read_dir_items] using h

/-! Claim C3: which list replacements clear the selection. -/

/-- C3 (corrected): every directory change that replaces the list — to the
parent when one exists, into the entry under the caret when it is not a
file, to the home directory when known — and the dotfile toggle clear the
selection in the same step; the plain refresh of the r key does NOT clear
it (see the counterexample). -/
theorem c3_theorem (fs : Fs) (home : Option (List String)) (s : State) :
    (s.path ≠ [] →
      ∃ t, change_dir fs home s FolderDir.parent = some t ∧ t.selected = []) ∧
    (∀ e, s.list.get? s.index = some e → e.kind ≠ EntryKind.file →
      ∃ t, change_dir fs home s FolderDir.child = some t ∧ t.selected = []) ∧
    (∀ h, home = some h →
      ∃ t, change_dir fs home s FolderDir.home = some t ∧ t.selected = []) ∧
    (toggle_dotfiles fs s).selected = [] ∧
    (refresh fs s).selected = s.selected := by
  refine ⟨?_, ?_, ?_, rfl, rfl⟩
  · intro hp
    simp only [change_dir, if_neg hp]
    exact ⟨_, rfl, rfl⟩
  · intro e hget hkind
    have hne : ¬ (s.list = []) := by
      intro h0
      rw [h0] at hget
      simp at hget
    simp only [change_dir, if_neg hne, hget, if_neg hkind]
    exact ⟨_, rfl, rfl⟩
  · intro h hh
    simp only [change_dir, hh]
    exact ⟨_, rfl, rfl⟩

/-- C3 (counterexample): a refresh replaces the six-entry list by a
one-entry list yet keeps the selection [5] — a stale index into the new
list is retained, while the claim demands the selection to be cleared on
every list replacement including plain refresh. -/
theorem c3_counterexample :
    (refresh fs0 c3cxS).selected = [5] ∧ (refresh fs0 c3cxS).list.length = 1 ∧
      (refresh fs0 c3cxS).selected ≠ [] := by decide

/-- C3 witness. -/
theorem c3_witness :
    (∃ t, change_dir fs0 none c3wS FolderDir.parent = some t ∧ t.selected = []) ∧
    (∃ t, change_dir fs0 (some ["h"]) c3wS FolderDir.home = some t ∧ t.selected = []) :=
  ⟨(c3_theorem fs0 none c3wS).1 (by decide),
   (c3_theorem fs0 (some ["h"]) c3wS).2.2.1 ["h"] rfl⟩

/-! Claims C7 and C8: the prompt editor. -/

/-- C7 (confirmed): with committed history [a, b] (oldest first) and
history_index 0, ArrowUp yields buffer b at history_index 1, a second
ArrowUp yields a at 2, ArrowDown restores b at 1, and a further ArrowDown
yields the empty buffer at 0; after each step the editing cursor sits at the
end of the buffer. -/
theorem c7_theorem :
    (c7s1.input = some "b" ∧ c7s1.history_index = 1 ∧
      c7s1.cursor = (c7s1.input.getD "").length) ∧
    (c7s2.input = some "a" ∧ c7s2.history_index = 2 ∧
      c7s2.cursor = (c7s2.input.getD "").length) ∧
    (c7s3.input = some "b" ∧ c7s3.history_index = 1 ∧
      c7s3.cursor = (c7s3.input.getD "").length) ∧
    (c7s4.input = none ∧ c7s4.history_index = 0 ∧
      c7s4.cursor = (c7s4.input.getD "").length) := by decide

/-- C8 (corrected): Enter closes the prompt (mode returns to Normal) and
appends a copy of the input field to the history exactly when the field is
present — which includes the empty string left behind after deleting every
typed character; appends are plain (no deduplication, no cap). -/
theorem c8_theorem (s : State) (history : List String) :
    (prompt_key s history PKey.enter).1.mode = Mode.normal ∧
    (prompt_key s history PKey.enter).2 = history ++ s.input.toList := by
  cases hin : s.input with
  | none => simp [prompt_key, hin]
  | some v => simp [prompt_key, hin]

/-- C8 (counterexample): after typing one character and deleting it the
buffer is the empty string (yet present), and Enter appends that empty
string to the history — the claim demands an append exactly for a non-empty
buffer. -/
theorem c8_counterexample :
    c8p2.1.input.getD "" = "" ∧ c8p3.2 = [""] ∧ c8p3.2 ≠ [] := by decide

/-! Claim C9: search commit. -/

theorem mem_search_selected {rm : RegexModel} {pat : String} {l : List Entry} {i : Nat} :
    i ∈ search_selected rm pat l ↔
      i < l.length ∧ rm.is_match pat (entryName l i) = true := by
  simp [search_selected, List.mem_filter, List.mem_range]

/-- C9 (corrected): a committed search whose compiled pattern is invalid —
possible only for input starting with a caret, since any other input is
escaped into an always-valid literal pattern — changes nothing but the error
message, so the selection is untouched; a pattern that compiles replaces the
selection by exactly the indices of the entries whose file name matches
(stated for lists inside the scroll-free zone, where the subsequent
Move::First jump cannot panic). -/
theorem c9_theorem (rm : RegexModel) (s : State) (p : String) (hin : s.input = some p)
    (hp : ¬ (p = "")) :
    (rm.valid (encodePat rm p) = false →
      do_search rm s =
        some { s with message := some (Message.error "Invalid search pattern!") }) ∧
    (rm.valid (encodePat rm p) = true → s.list.length + MARGIN + PADDING ≤ s.lines →
      ∃ t, do_search rm s = some t ∧
        (∀ i, i ∈ t.selected ↔
          i < s.list.length ∧ rm.is_match (encodePat rm p) (entryName s.list i) = true) ∧
        t.list = s.list) := by
  constructor
  · intro hv
    simp only [do_search, hin, Option.getD_some]
    rw [if_neg hp, if_neg (by simp [hv])]
  · intro hv hfit
    simp only [MARGIN, PADDING] at hfit
    simp only [do_search, hin, Option.getD_some]
    rw [if_neg hp, if_pos hv]
    by_cases hselnil : search_selected rm (encodePat rm p) s.list = []
    · have hg : ¬ (({ s with selected := search_selected rm (encodePat rm p) s.list } :
          State).list ≠ [] ∧
          ({ s with selected := search_selected rm (encodePat rm p) s.list } :
            State).selected ≠ []) := by
        rintro ⟨-, hsel⟩
        exact hsel hselnil
      simp only [move_caret, if_neg hg]
      refine ⟨_, rfl, ?_, rfl⟩
      intro i
      exact mem_search_selected
    · have hsne : sort_unstable (search_selected rm (encodePat rm p) s.list) ≠ [] :=
        sort_unstable_ne_nil hselnil
      have hhd : (sort_unstable (search_selected rm (encodePat rm p) s.list)).headD 0 ∈
          search_selected rm (encodePat rm p) s.list :=
        mem_sort_unstable.mp (headD_min (sort_unstable_pairwise _) hsne).1
      have hhdlt : (sort_unstable (search_selected rm (encodePat rm p) s.list)).headD 0 <
          s.list.length := (mem_search_selected.mp hhd).1
      have hlne : s.list ≠ [] := by
        intro h0
        rw [h0] at hhdlt
        simp at hhdlt
      have hg : (({ s with selected := search_selected rm (encodePat rm p) s.list } :
          State).list ≠ [] ∧
          ({ s with selected := search_selected rm (encodePat rm p) s.list } :
            State).selected ≠ []) := ⟨hlne, hselnil⟩
      simp only [move_caret, if_pos hg]
      have hv1 : checkedSub s.lines MARGIN = some (s.lines - 8) := by
        rw [show MARGIN = 8 from rfl]
        exact checkedSub_some (by omega)
      have hv2 : checkedSub (s.lines - 8) PADDING = some (s.lines - 8 - 2) := by
        rw [show PADDING = 2 from rfl]
        exact checkedSub_some (by omega)
      simp only [adjust_offset, hv1, hv2]
      rw [if_pos (by omega :
        (sort_unstable (search_selected rm (encodePat rm p) s.list)).headD 0 <
          s.lines - 8 - 2)]
      refine ⟨_, rfl, ?_, rfl⟩
      intro i
      exact mem_search_selected

/-- C9 (counterexample): the input of the claim, a lone opening parenthesis,
is not an invalid pattern: do_search escapes it into the literal pattern,
which compiles, so the selection [0] is replaced by [1] (the entry whose
name contains the parenthesis) and no error message is produced — while the
claim demands an unchanged selection and an error status message. -/
theorem c9_counterexample :
    c9cxS.input = some "(" ∧
    (do_search rm0 c9cxS).map State.selected = some [1] ∧
    c9cxS.selected = [0] ∧
    (do_search rm0 c9cxS).map State.message = some none := by decide

/-- C9 witness. -/
theorem c9_witness :
    (do_search rm0 c9wS =
      some { c9wS with message := some (Message.error "Invalid search pattern!") }) ∧
    (∃ t, do_search rm0 c9wS2 = some t ∧
      (∀ i, i ∈ t.selected ↔
        i < c9wS2.list.length ∧
          rm0.is_match (encodePat rm0 "^a") (entryName c9wS2.list i) = true) ∧
      t.list = c9wS2.list) :=
  ⟨(c9_theorem rm0 c9wS "^(" rfl (by decide)).1 (by decide),
   (c9_theorem rm0 c9wS2 "^a" rfl (by decide)).2 (by decide) (by decide)⟩

end Fx
